import Mathlib

/-!
Verification development for mysqldump2csv (bramp/mysqldump2csv), a converter
from MySQL dump files to CSV.  The definitions below are a shallow embedding of
the Go sources: the token-level row scanner of the standalone revision
(`consumeRow`, `scanUntilValues` in README.md), the SQL-literal value encoder
(`SQLCsvWriter.Write` via `sqlparser.String`, whose string case is the
`sqltypes.EncodeSQL` escaping also called directly by `writeValue` in
csvWriter.go), and the table registry / output router of the current revision
(`mySQLDump2Csv.create`, `insert`, `openCsv`, `writeRows`, `Close`,
`Table.Close`).  Go maps are modelled as association lists (iteration in
insertion order), `*Table` pointers by storing the updated record back into the
registry after each mutation, and the `*SQLCsvWriter` sinks by an append-only
list of sink records indexed by position, so that a sink orphaned by a registry
overwrite remains observable.  I/O is assumed to succeed except where a claim
is about close-time failures, which are modelled by an explicit per-sink
environment outcome.
-/

namespace MysqldumpToCsv

/-- Single-quote character, used to build SQL literal text. -/
def qc : Char := Char.ofNat 39

/-- Backslash character, the SQL escape lead-in. -/
def bsc : Char := Char.ofNat 92

/-- Single-quote as a one-character string. -/
def sq : String := String.mk [qc]

/-! ## Tokens and the standalone scanner (README.md, second revision)

`consumeRow` and `scanUntilValues` read from a `sqlparser.Tokenizer`.  Tokens
are modelled as a kind plus the raw value text; reading past the end of the
stream yields the EOF token (kind 0 in Go). -/

/-- Token kinds as used by `consumeRow` / `scanUntilValues`: the punctuation
characters the code compares against, the NULL and VALUES keywords, plain
identifiers, numeric literals, and a catch-all for every other token kind. -/
inductive TokKind where
  | eof
  | lparen
  | rparen
  | comma
  | minus
  | semi
  | nullKw
  | valuesKw
  | ident
  | number
  | otherTok
deriving DecidableEq, Repr

/-- One lexical token: kind plus raw value bytes (modelled as a string). -/
structure Token where
  kind : TokKind
  value : String
deriving DecidableEq, Repr

/-- Scan one token from the stream; at end of stream the tokenizer returns the
EOF token (token 0 with empty value in Go) forever. -/
def scan : List Token → Token × List Token
  | [] => (⟨.eof, ""⟩, [])
  | t :: ts => (t, ts)

/-- Errors returned by the standalone scanner: `io.EOF`, a `tokenError`
(expected description plus the found value, position omitted), or an
`errors.New` message. -/
inductive ScanErr where
  | eofErr
  | tokenErr (expected found : String)
  | msg (s : String)
deriving DecidableEq, Repr

/-- Message of the give-up error in `scanUntilValues`. -/
def unableMsg : String := "unable to find " ++ sq ++ "INSERT INTO ... VALUES" ++ sq

/-- Message of the error when VALUES is not preceded by an identifier. -/
def notPrecededMsg : String := "found VALUES but it was not preceeded by a table name"

/-- Loop of `consumeRow`, one iteration per value of the tuple: a `)` ends the
row; a bare `-` merges with the following token (whatever it is) into a single
negated value; a NULL keyword becomes the text `NULL`; any other token (the
EOF token included) contributes its raw value.  After the value the separator
is scanned: `,` continues the row, anything else breaks the loop and must be
the closing `)`.  The Go loop scans the value and the separator in sequence;
here the separator scan is unrolled into each value branch so that the
recursion is structural. -/
def rowLoop (acc : List String) : List Token → Except ScanErr (List String × List Token)
  | [] => .error (.tokenErr ")" "EOF")
  | t1 :: ts1 =>
    if t1.kind = .rparen then .ok (acc, ts1)
    else if t1.kind = .minus then
      match ts1 with
      | [] => .error (.tokenErr ")" "EOF")
      | t2 :: ts2 =>
        match ts2 with
        | [] => .error (.tokenErr ")" "EOF")
        | t3 :: ts3 =>
          if t3.kind = .comma then rowLoop (acc ++ ["-" ++ t2.value]) ts3
          else if t3.kind = .rparen then .ok (acc ++ ["-" ++ t2.value], ts3)
          else .error (.tokenErr ")" t3.value)
    else
      match ts1 with
      | [] => .error (.tokenErr ")" "EOF")
      | t3 :: ts3 =>
        if t3.kind = .comma then
          rowLoop (acc ++ [if t1.kind = .nullKw then "NULL" else t1.value]) ts3
        else if t3.kind = .rparen then
          .ok (acc ++ [if t1.kind = .nullKw then "NULL" else t1.value], ts3)
        else .error (.tokenErr ")" t3.value)

/-- Embedding of `consumeRow` (README.md second revision): expects `(`, reads
the comma-separated values until the matching `)`, and returns the row (the
record handed to `w.Write`) together with the remaining token stream. -/
def consumeRow : List Token → Except ScanErr (List String × List Token)
  | [] => .error .eofErr
  | t :: ts =>
    if t.kind = .eof then .error .eofErr
    else if t.kind = .lparen then rowLoop [] ts
    else .error (.tokenErr "(" t.value)

/-- Loop of `scanUntilValues` with explicit fuel (the Go loop runs for
`count := 0; count < 10000`), carrying the previous token kind and value
(initially token 0, i.e. EOF kind, with empty value). -/
def scanUntilValuesAux : Nat → TokKind → String → List Token → Except ScanErr String
  | 0, _, _, _ => .error (.msg unableMsg)
  | fuel + 1, prevKind, prevValue, ts =>
    match scan ts with
    | (t, ts1) =>
      if t.kind = .eof then .error .eofErr
      else if t.kind = .valuesKw then
        if prevKind = .ident then .ok prevValue
        else .error (.msg notPrecededMsg)
      else scanUntilValuesAux fuel t.kind t.value ts1

/-- Embedding of `scanUntilValues` (README.md second revision): scan and
discard tokens until the VALUES keyword, returning the identifier just before
it as the table name; give up after 10000 tokens. -/
def scanUntilValues (ts : List Token) : Except ScanErr String :=
  scanUntilValuesAux 10000 .eof "" ts

/-- Whether the token stream contains a VALUES token immediately preceded by an
identifier, starting from the given previous-token kind.  This is the event
`scanUntilValues` searches for. -/
def hasIdThenValues (prev : TokKind) : List Token → Bool
  | [] => false
  | t :: ts => (prev = .ident ∧ t.kind = .valuesKw : Bool) || hasIdThenValues t.kind ts

/-! ## The SQL-literal value encoder

`SQLCsvWriter.Write` (csv_writer.go, current revision) renders `*SQLVal` and
`*NullVal` fields with `sqlparser.String`.  For string values this applies
`sqltypes.MakeTrusted(sqltypes.VarBinary, val).EncodeSQL`, exactly the call
made by `writeValue` in csvWriter.go: the value is wrapped in single quotes
and each byte with an entry in the SQL escape map is emitted as a backslash
escape.  Bytes are modelled as `Char`s. -/

/-- The `sqltypes.SQLEncodeMap` escape table: NUL, single quote, double quote,
backspace, newline, carriage return, tab, ctrl-Z and backslash map to their
escape letters; every other byte is emitted verbatim. -/
def sqlEscape (c : Char) : Option Char :=
  if c = Char.ofNat 0 then some (Char.ofNat 48)
  else if c = qc then some qc
  else if c = Char.ofNat 34 then some (Char.ofNat 34)
  else if c = Char.ofNat 8 then some (Char.ofNat 98)
  else if c = Char.ofNat 10 then some (Char.ofNat 110)
  else if c = Char.ofNat 13 then some (Char.ofNat 114)
  else if c = Char.ofNat 9 then some (Char.ofNat 116)
  else if c = Char.ofNat 26 then some (Char.ofNat 90)
  else if c = bsc then some bsc
  else none

/-- The inverse table (`sqltypes.SQLDecodeMap`): maps an escape letter back to
the escaped byte. -/
def sqlUnescape (c : Char) : Option Char :=
  if c = Char.ofNat 48 then some (Char.ofNat 0)
  else if c = qc then some qc
  else if c = Char.ofNat 34 then some (Char.ofNat 34)
  else if c = Char.ofNat 98 then some (Char.ofNat 8)
  else if c = Char.ofNat 110 then some (Char.ofNat 10)
  else if c = Char.ofNat 114 then some (Char.ofNat 13)
  else if c = Char.ofNat 116 then some (Char.ofNat 9)
  else if c = Char.ofNat 90 then some (Char.ofNat 26)
  else if c = bsc then some bsc
  else none

/-- Body of `encodeBytesSQL`: escape each byte through the escape map. -/
def encodeBody : List Char → List Char
  | [] => []
  | c :: r =>
    match sqlEscape c with
    | some e => bsc :: e :: encodeBody r
    | none => c :: encodeBody r

/-- Embedding of `sqltypes.EncodeSQL` on a VarBinary value: the escaped body
wrapped in single quotes (`encodeBytesSQL`). -/
def encodeSQLChars (s : List Char) : List Char :=
  qc :: encodeBody s ++ [qc]

/-- Decoder for the literal-quoting rule, reading the quoted body: an
unescaped single quote closes the literal (and must end the text), a backslash
must be followed by a known escape letter, and every other character stands
for itself. -/
def decodeBody : List Char → Option (List Char)
  | [] => none
  | c :: r =>
    if c = qc then
      match r with
      | [] => some []
      | _ :: _ => none
    else if c = bsc then
      match r with
      | [] => none
      | e :: r2 =>
        match sqlUnescape e with
        | some c0 => (decodeBody r2).map (fun l => c0 :: l)
        | none => none
    else (decodeBody r).map (fun l => c :: l)

/-- Decode a full SQL string literal: an opening quote followed by the body. -/
def decodeSQLChars : List Char → Option (List Char)
  | [] => none
  | c :: r => if c = qc then decodeBody r else none

/-! ## Statements, values and the current application (README.md, third
revision, plus csv_writer.go) -/

/-- The closed set of value expressions `SQLCsvWriter.Write` accepts: the
`sqlparser.SQLVal` variants, `NullVal`, and `complex` standing for any other
`sqlparser.Expr` (which the writer rejects). -/
inductive Expr where
  | strVal (v : List Char)
  | intVal (v : String)
  | floatVal (v : String)
  | hexNum (v : String)
  | hexVal (v : String)
  | bitVal (v : String)
  | valArg (v : String)
  | nullVal
  | complex
deriving DecidableEq, Repr

/-- Errors surfaced by the application while processing statements. The
`nilDeref` value models the Go runtime panic caused by evaluating `t.name`
with `t = nil` in the multiple-tables branch of `insert`. -/
inductive Err where
  | unsupportedColumns
  | nilDeref
  | unsupportedRows (table : String)
  | unsupportedExpr
deriving DecidableEq, Repr

/-- Configuration of `mySQLDump2Csv` (the flag values threaded into the app
in `main`). -/
structure Config where
  delimiter : String
  newline : String
  header : Bool
  tableFilter : String
  multi : Bool
  verbose : Bool
deriving DecidableEq, Repr

/-- Render one field the way `SQLCsvWriter.Write` does: `sqlparser.String` on
`*SQLVal` and `*NullVal` (string values quoted by `EncodeSQL`, numeric kinds
verbatim, hex and bit literals with their prefix notation, `NullVal` as the
fixed text `null`), and an error for any other expression. -/
def encodeExpr : Expr → Except Err String
  | .strVal v => .ok (String.mk (encodeSQLChars v))
  | .intVal v => .ok v
  | .floatVal v => .ok v
  | .hexNum v => .ok v
  | .hexVal v => .ok ("X" ++ sq ++ v ++ sq)
  | .bitVal v => .ok ("B" ++ sq ++ v ++ sq)
  | .valArg v => .ok v
  | .nullVal => .ok "null"
  | .complex => .error .unsupportedExpr

/-- Encode every field of a record, failing at the first unsupported
expression, as the field loop of `SQLCsvWriter.Write` does. -/
def encodeFields : List Expr → Except Err (List String)
  | [] => .ok []
  | e :: r =>
    match encodeExpr e with
    | .error err => .error err
    | .ok s =>
      match encodeFields r with
      | .error err => .error err
      | .ok ss => .ok (s :: ss)

/-- Embedding of `SQLCsvWriter.Write`: encoded fields joined by the delimiter,
terminated by the newline. -/
def writeRecord (cfg : Config) (record : List Expr) : Except Err String :=
  match encodeFields record with
  | .error e => .error e
  | .ok fs => .ok (String.intercalate cfg.delimiter fs ++ cfg.newline)

/-- The row sets of an INSERT statement: `sqlparser.Values` or any other
`InsertRows` implementation (for example a SELECT), which is unsupported. -/
inductive Rows where
  | values (vs : List (List Expr))
  | otherRows
deriving DecidableEq, Repr

/-- Statements as dispatched by `Process`: an INSERT (table name as produced
by `tableName`, the explicit column list, and the rows), a CREATE TABLE DDL
(with its optional `TableSpec` column names), or anything else (ignored). -/
inductive Stmt where
  | insert (table : String) (columns : List String) (rows : Rows)
  | createTable (table : String) (spec : Option (List String))
  | otherStmt
deriving DecidableEq, Repr

/-- One output sink: the `*SQLCsvWriter` (with its destination) created by
`openCsv` for a table.  `columnsAtOpen` records the column list of the table
at open time (the header content), `headerLines` how many header lines were
written to it and `rowsWritten` how many data rows. -/
structure Sink where
  table : String
  columnsAtOpen : List String
  headerLines : Nat
  rowsWritten : Nat
deriving DecidableEq, Repr

/-- The per-table state (`Table` struct, current revision): name, column list
from CREATE TABLE, `csv` as the index of its open sink (`none` models a nil
`csv` field), and the cumulative row count. -/
structure Table where
  name : String
  columns : List String
  csv : Option Nat
  count : Nat
deriving DecidableEq, Repr

/-- The application state: the registry map (association list in insertion
order), every sink ever created (append-only, indexed by `Table.csv`), and the
log output. -/
structure App where
  tables : List (String × Table)
  sinks : List Sink
  logs : List String
deriving DecidableEq, Repr

/-- Initial application state (`newMySQLDump2Csv`). -/
def initApp : App := ⟨[], [], []⟩

/-- Look up a table by name (Go map read). -/
def lookupTable (n : String) : List (String × Table) → Option Table
  | [] => none
  | (k, t) :: r => if k = n then some t else lookupTable n r

/-- Write a table under a name (Go map assignment): replace the entry if the
key is present, otherwise add it. -/
def updateTable (n : String) (t : Table) : List (String × Table) → List (String × Table)
  | [] => [(n, t)]
  | (k, u) :: r => if k = n then (n, t) :: r else (k, u) :: updateTable n t r

/-- Add one written row to the sink at the given index. -/
def bumpRows : Nat → List Sink → List Sink
  | _, [] => []
  | 0, s :: r => { s with rowsWritten := s.rowsWritten + 1 } :: r
  | n + 1, s :: r => s :: bumpRows n r

/-- Total number of data rows written to sinks belonging to the given table
name (orphaned sinks included). -/
def rowsFor (t : String) : List Sink → Nat
  | [] => 0
  | s :: r => (if s.table = t then s.rowsWritten else 0) + rowsFor t r

/-- Diagnostic logged by `openCsv` when the column list is unknown. -/
def noHeaderMsg (n : String) : String :=
  "Table " ++ n ++ " columns are unknown so no header printed."

/-- Log line announcing the per-table file in multi mode. -/
def creatingMsg (n : String) : String :=
  "Creating " ++ n ++ ".csv for table " ++ n

/-- Log line of `create` when the DDL has no `TableSpec` (verbose only). -/
def missingSpecMsg : String := "Create DDL is missing a TableSpec"

/-- Embedding of `mySQLDump2Csv.openCsv`: create the destination (a fresh file
in multi mode, the shared default writer otherwise — in both cases a fresh
`SQLCsvWriter`), then write the header if headers are enabled and the column
list is known, logging a diagnostic instead when it is unknown.  File creation
is assumed to succeed. -/
def openCsv (cfg : Config) (app : App) (t : Table) : App × Table :=
  let createLogs := if cfg.multi then [creatingMsg t.name] else []
  let hdr : Nat × List String :=
    if cfg.header then
      if t.columns = [] then (0, [noHeaderMsg t.name])
      else (1, [])
    else (0, [])
  let sink : Sink :=
    { table := t.name, columnsAtOpen := t.columns, headerLines := hdr.1, rowsWritten := 0 }
  ({ app with
      sinks := app.sinks ++ [sink],
      logs := app.logs ++ createLogs ++ hdr.2 },
   { t with csv := some app.sinks.length })

/-- Row loop of `writeRows`: write each tuple through `SQLCsvWriter.Write`
into the sink at the given index, stopping at the first failure. -/
def writeRowsAux (cfg : Config) (idx : Nat) : List (List Expr) → List Sink → Except Err (List Sink)
  | [], sinks => .ok sinks
  | row :: rest, sinks =>
    match writeRecord cfg row with
    | .error e => .error e
    | .ok _ => writeRowsAux cfg idx rest (bumpRows idx sinks)

/-- Tail of `insert` once the table is resolved and its sink open: dispatch on
the row kind; for `Values`, run `writeRows` (write every tuple, then add the
tuple count to `t.count`); otherwise fail as unsupported. -/
def insertWrite (cfg : Config) (app : App) (name : String) (t : Table) (idx : Nat)
    (rows : Rows) : Except Err App :=
  match rows with
  | .values vs =>
    match writeRowsAux cfg idx vs app.sinks with
    | .error e => .error e
    | .ok sinks2 =>
      let t2 := { t with count := t.count + vs.length }
      .ok { app with sinks := sinks2, tables := updateTable name t2 app.tables }
  | .otherRows => .error (.unsupportedRows t.name)

/-- Middle of `insert`: open the csv on the first attempt to write to the
table (`t.csv == nil`), storing the updated table back into the registry. -/
def insertOpenAndWrite (cfg : Config) (app : App) (name : String) (t : Table)
    (rows : Rows) : Except Err App :=
  match t.csv with
  | some idx => insertWrite cfg app name t idx rows
  | none =>
    let idx := app.sinks.length
    let p := openCsv cfg app t
    let app2 := { p.1 with tables := updateTable name p.2 p.1.tables }
    insertWrite cfg app2 name p.2 idx rows

/-- Table resolution of `insert`: look the name up, creating registry state
on first use — but in single-sink mode a second distinct name takes the error
branch that evaluates `t.name` on the nil `t`, a runtime panic, modelled as
`nilDeref` — then open and write. -/
def insertResolve (cfg : Config) (app : App) (name : String) (rows : Rows) : Except Err App :=
  match lookupTable name app.tables with
  | some t => insertOpenAndWrite cfg app name t rows
  | none =>
    if ¬cfg.multi ∧ 1 ≤ app.tables.length then .error .nilDeref
    else
      let t : Table := { name := name, columns := [], csv := none, count := 0 }
      let app1 := { app with tables := updateTable name t app.tables }
      insertOpenAndWrite cfg app1 name t rows

/-- Embedding of `mySQLDump2Csv.insert`: reject explicit column lists, apply
the table filter, then resolve the table and write the rows. -/
def insertStmt (cfg : Config) (app : App) (name : String) (cols : List String)
    (rows : Rows) : Except Err App :=
  if cols ≠ [] then .error .unsupportedColumns
  else if cfg.tableFilter ≠ "" ∧ cfg.tableFilter ≠ name then .ok app
  else insertResolve cfg app name rows

/-- Embedding of `mySQLDump2Csv.create`: take the column list from the DDL
`TableSpec` (logging in verbose mode when it is missing) and assign a fresh
`Table` record into the registry under the name — overwriting whatever entry
was there. -/
def createStmt (cfg : Config) (app : App) (name : String)
    (spec : Option (List String)) : Except Err App :=
  let cl : List String × List String :=
    match spec with
    | some cs => (cs, [])
    | none => ([], if cfg.verbose then [missingSpecMsg] else [])
  .ok { app with
        tables := updateTable name
          { name := name, columns := cl.1, csv := none, count := 0 } app.tables,
        logs := app.logs ++ cl.2 }

/-- Statement dispatch of `Process`: INSERTs and CREATE TABLE DDLs are
handled, everything else is ignored. -/
def processStmt (cfg : Config) (app : App) : Stmt → Except Err App
  | .insert t c r => insertStmt cfg app t c r
  | .createTable t spec => createStmt cfg app t spec
  | .otherStmt => .ok app

/-- The statement loop of `Process` over an already-parsed statement list. -/
def processList (cfg : Config) : List Stmt → App → Except Err App
  | [], app => .ok app
  | s :: rest, app =>
    match processStmt cfg app s with
    | .error e => .error e
    | .ok app2 => processList cfg rest app2

/-- The count `Close` reports for a table (`Wrote %d rows`): the registry
entry's counter, 0 when the table is unknown. -/
def reportedCount (app : App) (t : String) : Nat :=
  (lookupTable t app.tables).elim 0 (fun tb => tb.count)

/-- Whether the input statement list contains a CREATE TABLE for `t` at a
position after an INSERT for `t`; the flag carries whether an INSERT for `t`
has been seen so far. -/
def lateCreate (t : String) : List Stmt → Bool → Bool
  | [], _ => false
  | s :: r, seen =>
    match s with
    | .createTable n _ => (seen && n == t) || lateCreate t r seen
    | .insert n _ _ => lateCreate t r (seen || n == t)
    | .otherStmt => lateCreate t r seen

/-! ## Shutdown (`mySQLDump2Csv.Close` and `Table.Close`)

Close-time I/O is environmental, so for the shutdown claims each table record
carries the outcome its `csv.Flush()` / `out.Close()` sequence would have:
`closeErr = some e` means flushing or closing this table's sink fails with
`e`. -/

/-- A table at shutdown: name, whether its csv is open (`csv != nil`), and the
environmental outcome of flushing and closing its sink. -/
structure CTable where
  name : String
  csvOpen : Bool
  closeErr : Option String
deriving DecidableEq, Repr

/-- Embedding of `Table.Close`: a nil csv returns immediately; otherwise flush
and close the destination, propagating the failure if any. -/
def tableClose (t : CTable) : Except String Unit :=
  if t.csvOpen then
    match t.closeErr with
    | some e => .error e
    | none => .ok ()
  else .ok ()

/-- Whether `tableClose` fails for this table. -/
def closeFails (t : CTable) : Bool :=
  t.csvOpen && t.closeErr.isSome

/-- Embedding of `mySQLDump2Csv.Close`: close the tables in turn, returning
the wrapped error of the first failing close.  The first component collects
the tables on which `Table.Close` was invoked. -/
def appClose : List CTable → List String × Except String Unit
  | [] => ([], .ok ())
  | t :: rest =>
    match tableClose t with
    | .error e => ([t.name], .error ("Failed to close csv files: " ++ e))
    | .ok _ =>
      let p := appClose rest
      (t.name :: p.1, p.2)

/-! ## Derived observations and concrete inputs used by the theorems -/

/-- The header-relevant part of a sink: table, columns known at open time,
and number of header lines. -/
def sinkHdr (s : Sink) : String × List String × Nat :=
  (s.table, s.columnsAtOpen, s.headerLines)

/-- Registry well-formedness: every entry is keyed by its table's name, and an
open `csv` index points at a sink of that table. -/
def RegistryOk (app : App) : Prop :=
  ∀ p ∈ app.tables,
    p.2.name = p.1 ∧
    ∀ i : Nat, p.2.csv = some i → (app.sinks[i]?).map Sink.table = some p.1

/-- Count correctness for one table name: the registry counter equals the
data rows written to that table's sinks, and a table without an open sink has
no written rows. -/
def CountOk (t : String) (app : App) : Prop :=
  match lookupTable t app.tables with
  | some tb => tb.count = rowsFor t app.sinks ∧ (tb.csv = none → rowsFor t app.sinks = 0)
  | none => rowsFor t app.sinks = 0

/-- Whether the registry entry of this table currently has an open sink. -/
def tableOpen (app : App) (t : String) : Bool :=
  match lookupTable t app.tables with
  | some tb => tb.csv.isSome
  | none => false

/-- Header discipline over every sink of the run: at most one header line per
sink, a header exactly when headers are enabled and the column list was known
at open time, and the no-header diagnostic logged whenever headers were
enabled but the columns were unknown. -/
def HeaderOk (cfg : Config) (app : App) : Prop :=
  ∀ s ∈ app.sinks,
    s.headerLines ≤ 1 ∧
    (s.headerLines = 1 ↔ (cfg.header = true ∧ s.columnsAtOpen ≠ [])) ∧
    (cfg.header = true → s.columnsAtOpen = [] → noHeaderMsg s.table ∈ app.logs)

/-- Flag defaults of the tool: comma delimiter, newline terminator, header
on, no filter, single-sink mode, not verbose. -/
def cfgDefault : Config := ⟨",", "\n", true, "", false, false⟩

/-- Defaults with a table filter of `page`. -/
def cfgFilterPage : Config := { cfgDefault with tableFilter := "page" }

/-- A configuration with the table filter cleared. -/
def clearFilter (cfg : Config) : Config := { cfg with tableFilter := "" }

/-- A single one-field integer tuple. -/
def oneIntRow (v : String) : List (List Expr) := [[Expr.intVal v]]

/-- Single-sink input whose second INSERT references a fresh second table. -/
def twoTableInsertStmts : List Stmt :=
  [.insert "a" [] (.values (oneIntRow "1")),
   .insert "b" [] (.values (oneIntRow "2"))]

/-- Single-sink input where both tables are declared by CREATE TABLE before
any INSERT, so both are found in the registry when their INSERTs arrive. -/
def twoTableCreateFirstStmts : List Stmt :=
  [.createTable "a" (some ["i"]),
   .createTable "b" (some ["i"]),
   .insert "a" [] (.values (oneIntRow "1")),
   .insert "b" [] (.values (oneIntRow "2"))]

/-- Input whose CREATE TABLE for `page` arrives after an INSERT for `page`
has already opened the table's sink. -/
def lateCreateStmts : List Stmt :=
  [.insert "page" [] (.values [[Expr.intVal "1"], [Expr.intVal "2"]]),
   .createTable "page" (some ["id"]),
   .insert "page" [] (.values [[Expr.intVal "3"]])]

/-- Prefix of `lateCreateStmts` ending right after the CREATE TABLE. -/
def lateCreatePrefix : List Stmt := lateCreateStmts.take 2

/-- Final state after processing `lateCreateStmts` with the defaults. -/
def lateCreateApp : App :=
  (processList cfgDefault lateCreateStmts initApp).toOption.getD initApp

/-- Shutdown situation with two open sinks where the first close fails. -/
def twoOpenTables : List CTable :=
  [⟨"a", true, some "disk full"⟩, ⟨"b", true, none⟩]

/-- An input with one INSERT for a table whose schema was never declared. -/
def noSchemaStmts : List Stmt := [.insert "page" [] (.values (oneIntRow "1"))]

/-- Final state after processing `noSchemaStmts` with the defaults. -/
def noSchemaApp : App :=
  (processList cfgDefault noSchemaStmts initApp).toOption.getD initApp

/-- The worked example of the specification: CREATE TABLE page, then two
INSERT statements carrying two and one tuples. -/
def specExampleStmts : List Stmt :=
  [.createTable "page" (some ["id", "name"]),
   .insert "page" [] (.values [[Expr.intVal "1", Expr.strVal ['A']],
                               [Expr.intVal "2", Expr.strVal ['B']]]),
   .insert "page" [] (.values [[Expr.intVal "3", Expr.strVal ['C']]])]

/-- Final state after processing `specExampleStmts` with the defaults. -/
def specExampleApp : App :=
  (processList cfgDefault specExampleStmts initApp).toOption.getD initApp

/-- An identifier token. -/
def idTok : Token := ⟨.ident, "x"⟩

/-- A VALUES keyword token. -/
def valuesTok : Token := ⟨.valuesKw, "VALUES"⟩

/-- A long token stream whose only VALUES token is first (so not preceded by
an identifier), followed by more than 10000 identifiers. -/
def valuesFirstStream : List Token := valuesTok :: List.replicate 10000 idTok

/-- A stream of exactly 10000 identifier tokens: no VALUES, no end-of-stream
within the scan bound. -/
def identOnlyStream : List Token := List.replicate 10000 idTok

/-! ## Theorems -/

/-- Each escape letter decodes back to the byte it encodes. -/
theorem sqlUnescape_sqlEscape (c e : Char) (h : sqlEscape c = some e) :
    sqlUnescape e = some c := by
  unfold sqlEscape at h
  split_ifs at h <;> simp_all <;> subst_eqs <;> decide

/-- A byte the escape map passes through is neither the quote nor the
backslash. -/
theorem sqlEscape_none (c : Char) (h : sqlEscape c = none) : c ≠ qc ∧ c ≠ bsc := by
  constructor <;> intro hc <;> subst hc <;> revert h <;> decide

/-- Decoding the escaped body followed by the closing quote recovers the
original bytes. -/
theorem decodeBody_encodeBody (s : List Char) :
    decodeBody (encodeBody s ++ [qc]) = some s := by
  induction s with
  | nil => decide
  | cons c r ih =>
    cases h : sqlEscape c with
    | some e =>
      have he := sqlUnescape_sqlEscape c e h
      have hbq : bsc ≠ qc := by decide
      simp [encodeBody, h, decodeBody, hbq, he, ih]
    | none =>
      have hne := sqlEscape_none c h
      have hstep : decodeBody (c :: (encodeBody r ++ [qc]))
          = (decodeBody (encodeBody r ++ [qc])).map (fun l => c :: l) := by
        rw [decodeBody.eq_def]
        simp [hne.1, hne.2]
      simp [encodeBody, h, hstep, ih]

/-- C6: every string value is emitted quoted — an opening quote, the body
with quote and backslash bytes escaped, a closing quote, never unquoted —
and decoding the emitted text under the same literal-quoting rule yields the
original bytes (round trip). -/
theorem c6_string_quoting_roundtrip (s : List Char) :
    encodeSQLChars s = qc :: encodeBody s ++ [qc] ∧
    decodeSQLChars (encodeSQLChars s) = some s := by
  refine ⟨rfl, ?_⟩
  simp [encodeSQLChars, decodeSQLChars, decodeBody_encodeBody s]

/-- C8: in `consumeRow` a bare `-` token immediately preceding a numeric
token is merged with it into one negated value: the tuple `(`, `-`, `v`, `)`
produces the single field `-v` (never two fields), and in the middle of a row
the pair `-`, `v` followed by a comma contributes exactly one field `-v`. -/
theorem c8_minus_merge (v : String) (rest : List Token) :
    consumeRow (⟨.lparen, "("⟩ :: ⟨.minus, "-"⟩ :: ⟨.number, v⟩ :: ⟨.rparen, ")"⟩ :: rest)
      = .ok (["-" ++ v], rest) ∧
    ∀ acc ts, rowLoop acc (⟨.minus, "-"⟩ :: ⟨.number, v⟩ :: ⟨.comma, ","⟩ :: ts)
      = rowLoop (acc ++ ["-" ++ v]) ts := by
  exact ⟨rfl, fun acc ts => rfl⟩

/-- C7 counterexample: with the default configuration a NULL value is
rendered as the lowercase text `null` (the rendering `sqlparser.String` gives
`NullVal`), not as the claimed default sentinel `NULL`, and no sentinel
configuration exists in the writer. -/
theorem c7_null_default_cex :
    writeRecord cfgDefault [Expr.nullVal] = .ok ("null" ++ "\n") ∧
    "null" ≠ "NULL" := by
  exact ⟨rfl, by decide⟩

/-- C7 amended: every NULL value is rendered as the fixed literal text
`null` — in any record each NULL field encodes to `null` — and that text is
never the empty field. -/
theorem c7_null_rendering_amended :
    (encodeExpr Expr.nullVal = .ok "null" ∧ "null" ≠ "") ∧
    ∀ (record : List Expr) (fs : List String), encodeFields record = .ok fs →
      ∀ i : Nat, record[i]? = some Expr.nullVal → fs[i]? = some "null" := by
  refine ⟨⟨rfl, by decide⟩, ?_⟩
  intro record
  induction record with
  | nil =>
    intro fs hfs i hi
    simp at hi
  | cons e r ih =>
    intro fs hfs i hi
    cases he : encodeExpr e with
    | error err => simp [encodeFields, he] at hfs
    | ok s =>
      cases hr : encodeFields r with
      | error err => simp [encodeFields, he, hr] at hfs
      | ok ss =>
        simp [encodeFields, he, hr] at hfs
        subst hfs
        cases i with
        | zero =>
          simp at hi ⊢
          subst hi
          cases he
          rfl
        | succ j =>
          simp at hi ⊢
          exact ih ss hr j hi

/-- C7 witness: the amended statement applied to a concrete record with a
NULL in the second position. -/
theorem c7_null_rendering_amended_witness :
    encodeFields [Expr.intVal "1", Expr.nullVal] = .ok ["1", "null"] ∧
    ["1", "null"][1]? = some "null" := by
  refine ⟨rfl, ?_⟩
  exact c7_null_rendering_amended.2 [Expr.intVal "1", Expr.nullVal] ["1", "null"] rfl 1 rfl

/-- C1: in single-sink mode, an INSERT resolving a second distinct table name
does not produce the intended configuration error.  For a fresh second name
the error branch of `insert` evaluates `t.name` with `t` nil and the run dies
with a nil-pointer panic (`nilDeref`); and when both tables were declared by
CREATE TABLE first, the lookup succeeds, no check fires at all, and both
tables silently write to the shared sink (mixed-table output). -/
theorem c1_single_sink_conflict_bug :
    processList cfgDefault twoTableInsertStmts initApp = .error .nilDeref ∧
    (processList cfgDefault twoTableCreateFirstStmts initApp).toOption.map
        (fun a => a.sinks.map (fun s => (s.table, s.rowsWritten)))
      = some [("a", 1), ("b", 1)] := by
  exact ⟨rfl, rfl⟩

/-- C2: processing a CREATE TABLE for a name that already has an open sink
replaces the registry entry wholesale.  After INSERT-then-CREATE the only
sink (already holding 2 written rows) is orphaned — the registry entry has
`csv = none` and `count = 0` — and a further INSERT opens a second sink for
the same table, so the sink is opened twice and the first one is never
reachable for closing. -/
theorem c2_create_destroys_open_sink_bug :
    (processList cfgDefault lateCreatePrefix initApp).toOption.map
        (fun a => (a.sinks.map (fun s => (s.table, s.rowsWritten)),
                   (lookupTable "page" a.tables).map (fun tb => (tb.csv, tb.count))))
      = some ([("page", 2)], some (none, 0)) ∧
    lateCreateApp.sinks.map Sink.table = ["page", "page"] := by
  exact ⟨rfl, rfl⟩

/-- C3 counterexample: with two open sinks whose first close fails, `Close`
reports the wrapped failure but never attempts to close the second sink, so
close is not attempted on every opened sink. -/
theorem c3_close_abandons_rest_cex :
    (appClose twoOpenTables).2 = .error ("Failed to close csv files: disk full") ∧
    (appClose twoOpenTables).1 = ["a"] ∧
    ¬ ("b" ∈ (appClose twoOpenTables).1) := by
  exact ⟨rfl, rfl, by decide⟩

/-- C5 counterexample: on a well-formed input whose CREATE TABLE for `page`
arrives between two INSERTs, three tuples are written for `page` across the
run's sinks but the final reported count is 1, because the CREATE reset the
registry entry. -/
theorem c5_count_mismatch_cex :
    processList cfgDefault lateCreateStmts initApp = .ok lateCreateApp ∧
    reportedCount lateCreateApp "page" = 1 ∧
    rowsFor "page" lateCreateApp.sinks = 3 ∧
    (1 : Nat) ≠ 3 := by
  exact ⟨rfl, rfl, rfl, by decide⟩

/-- C9 counterexample: an INSERT for a table other than the configured filter
is not always discarded with no effect: when it carries an explicit column
list, the unsupported-columns check fires before the filter check and the
whole run fails. -/
theorem c9_filter_not_discard_cex :
    insertStmt cfgFilterPage initApp "other" ["c1"] (.values []) = .error .unsupportedColumns ∧
    insertStmt cfgFilterPage initApp "other" ["c1"] (.values []) ≠ .ok initApp := by
  refine ⟨rfl, fun h => ?_⟩
  have h2 : (Except.error Err.unsupportedColumns : Except Err App) = .ok initApp := h
  exact Except.noConfusion h2

/-- The scan loop of `scanUntilValues` never looks past its fuel: the result
is determined by the first `fuel` tokens. -/
theorem scanUntilValuesAux_take (fuel : Nat) (p : TokKind) (v : String) (ts : List Token) :
    scanUntilValuesAux fuel p v ts = scanUntilValuesAux fuel p v (ts.take fuel) := by
  induction fuel generalizing p v ts with
  | zero => rfl
  | succ n ih =>
    cases ts with
    | nil => rfl
    | cons t r =>
      by_cases h1 : t.kind = .eof
      · simp [scanUntilValuesAux, scan, h1]
      · by_cases h2 : t.kind = .valuesKw
        · simp [scanUntilValuesAux, scan, h1, h2]
        · simp only [List.take_succ_cons, scanUntilValuesAux, scan, h1, h2, if_false,
            if_neg h1, if_neg h2]
          exact ih t.kind t.value r

/-- When the stream is at least as long as the fuel and none of the tokens in
reach is an EOF or VALUES token, the loop exhausts its fuel and gives up. -/
theorem scanUntilValuesAux_exhaust (fuel : Nat) (p : TokKind) (v : String) (ts : List Token)
    (hlen : fuel ≤ ts.length)
    (hall : ∀ t ∈ ts.take fuel, t.kind ≠ .eof ∧ t.kind ≠ .valuesKw) :
    scanUntilValuesAux fuel p v ts = .error (.msg unableMsg) := by
  induction fuel generalizing p v ts with
  | zero => rfl
  | succ n ih =>
    cases ts with
    | nil => simp at hlen
    | cons t r =>
      have ht := hall t (by rw [List.take_succ_cons]; exact List.mem_cons_self t _)
      simp only [scanUntilValuesAux, scan, if_neg ht.1, if_neg ht.2]
      exact ih t.kind t.value r (by simpa using hlen)
        (fun x hx => hall x (by rw [List.take_succ_cons]; exact List.mem_cons_of_mem _ hx))

/-- C10 amended: the search for the VALUES keyword examines at most 10000
tokens (the result depends only on that prefix), and when the first 10000
tokens contain neither an end-of-stream token nor any VALUES token at all it
gives up with the fatal error `unable to find 'INSERT INTO ... VALUES'`.  (A
VALUES token that is not preceded by an identifier, or an end of stream
within the bound, instead produce their own distinct errors.) -/
theorem c10_scan_bound_amended :
    (∀ ts : List Token, scanUntilValues ts = scanUntilValues (ts.take 10000)) ∧
    (∀ ts : List Token, 10000 ≤ ts.length →
      (∀ t ∈ ts.take 10000, t.kind ≠ .eof ∧ t.kind ≠ .valuesKw) →
      scanUntilValues ts = .error (.msg unableMsg)) := by
  constructor
  · intro ts
    exact scanUntilValuesAux_take 10000 .eof "" ts
  · intro ts h1 h2
    exact scanUntilValuesAux_exhaust 10000 .eof "" ts h1 h2

/-- C10 witness: on a stream of 10000 identifier tokens the amended theorem
applies and the scanner gives up with the stated error. -/
theorem c10_scan_bound_amended_witness :
    10000 ≤ identOnlyStream.length ∧
    scanUntilValues identOnlyStream = .error (.msg unableMsg) := by
  have h1 : 10000 ≤ identOnlyStream.length := by
    rw [identOnlyStream, List.length_replicate]
  have h2 : ∀ t ∈ identOnlyStream.take 10000, t.kind ≠ .eof ∧ t.kind ≠ .valuesKw := by
    intro t ht
    have hmem : t ∈ List.replicate 10000 idTok := List.mem_of_mem_take ht
    have heq : t = idTok := List.eq_of_mem_replicate hmem
    subst heq
    exact ⟨by decide, by decide⟩
  exact ⟨h1, c10_scan_bound_amended.2 identOnlyStream h1 h2⟩

/-- Unfolding step of `hasIdThenValues` on a cons cell. -/
theorem hasIdThenValues_cons (p : TokKind) (t : Token) (ts : List Token) :
    hasIdThenValues p (t :: ts)
      = ((p = .ident ∧ t.kind = .valuesKw : Bool) || hasIdThenValues t.kind ts) := rfl

/-- A replicated identifier token stream never contains an identifier
followed by a VALUES token. -/
theorem hasIdThenValues_replicate_id (p : TokKind) (n : Nat) :
    hasIdThenValues p (List.replicate n idTok) = false := by
  induction n generalizing p with
  | zero => rfl
  | succ m ih =>
    rw [List.replicate_succ]
    simp only [hasIdThenValues]
    have hk : idTok.kind = TokKind.ident := rfl
    rw [hk, ih .ident]
    simp

/-- C10 counterexample: a long stream whose first token is a VALUES keyword
contains no VALUES preceded by an identifier within the 10000-token bound and
extends beyond the bound, yet the scanner does not return the give-up error
`unable to find 'INSERT INTO ... VALUES'` — it fails immediately with the
distinct `found VALUES but it was not preceeded by a table name` error. -/
theorem c10_other_error_within_bound_cex :
    hasIdThenValues .eof (valuesFirstStream.take 10000) = false ∧
    10000 < valuesFirstStream.length ∧
    scanUntilValues valuesFirstStream = .error (.msg notPrecededMsg) ∧
    ScanErr.msg notPrecededMsg ≠ ScanErr.msg unableMsg := by
  refine ⟨?_, ?_, rfl, ?_⟩
  · have h10 : (10000 : Nat) = 9999 + 1 := rfl
    rw [valuesFirstStream, h10, List.take_succ_cons, List.take_replicate]
    have hmin : min 9999 10000 = 9999 := rfl
    rw [hmin, hasIdThenValues_cons]
    have hk : valuesTok.kind = TokKind.valuesKw := rfl
    rw [hk, hasIdThenValues_replicate_id .valuesKw 9999]
    decide
  · rw [valuesFirstStream, List.length_cons, List.length_replicate]
    omega
  · intro h
    have h2 : notPrecededMsg = unableMsg := ScanErr.msg.inj h
    revert h2
    decide

/-- A table's close succeeds exactly when it is not a failing close. -/
theorem tableClose_ok_iff (t : CTable) : tableClose t = .ok () ↔ closeFails t = false := by
  unfold tableClose closeFails
  cases t.csvOpen <;> cases t.closeErr <;> simp

/-- A failing table close surfaces the environmental error. -/
theorem tableClose_error_of_fails (t : CTable) (h : closeFails t = true) :
    tableClose t = .error (t.closeErr.getD "") := by
  unfold closeFails at h
  unfold tableClose
  cases ho : t.csvOpen <;> cases he : t.closeErr <;> simp_all

/-- Unfolding of `appClose` when the head close fails. -/
theorem appClose_cons_error (t : CTable) (rest : List CTable) (h : closeFails t = true) :
    appClose (t :: rest)
      = ([t.name], .error ("Failed to close csv files: " ++ t.closeErr.getD "")) := by
  simp [appClose, tableClose_error_of_fails t h]

/-- Unfolding of `appClose` when the head close succeeds. -/
theorem appClose_cons_ok (t : CTable) (rest : List CTable) (h : closeFails t = false) :
    appClose (t :: rest) = (t.name :: (appClose rest).1, (appClose rest).2) := by
  simp [appClose, (tableClose_ok_iff t).mpr h]

/-- C3 amended: at shutdown, `Close` walks the tables in order and stops at
the first failing close: close is attempted exactly on the tables up to and
including the first failure (on all of them when none fails), the result is
success exactly when no close fails, and on failure the reported error wraps
the first failing table's close error; the remaining sinks are not closed. -/
theorem c3_close_first_failure_amended :
    ∀ ts : List CTable,
      ((appClose ts).1 = (ts.take (ts.findIdx closeFails + 1)).map CTable.name) ∧
      ((appClose ts).2 = .ok () ↔ ∀ t ∈ ts, closeFails t = false) ∧
      (∀ i : Nat, ∀ h : i < ts.length, ts.findIdx closeFails = i →
        (appClose ts).2
          = .error ("Failed to close csv files: " ++ (ts.get ⟨i, h⟩).closeErr.getD "")) := by
  intro ts
  induction ts with
  | nil =>
    refine ⟨rfl, by simp [appClose], ?_⟩
    intro i h
    exact absurd h (Nat.not_lt_zero i)
  | cons t rest ih =>
    cases hf : closeFails t with
    | true =>
      refine ⟨?_, ?_, ?_⟩
      · rw [appClose_cons_error t rest hf, List.findIdx_cons]
        simp [hf]
      · rw [appClose_cons_error t rest hf]
        constructor
        · intro hok
          exact Except.noConfusion hok
        · intro hall
          have := hall t (List.mem_cons_self t rest)
          rw [hf] at this
          exact Bool.noConfusion this
      · intro i h hidx
        rw [List.findIdx_cons] at hidx
        rw [hf] at hidx
        simp at hidx
        subst hidx
        rw [appClose_cons_error t rest hf]
        rfl
    | false =>
      refine ⟨?_, ?_, ?_⟩
      · rw [appClose_cons_ok t rest hf, List.findIdx_cons]
        rw [hf]
        simpa using ih.1
      · rw [appClose_cons_ok t rest hf]
        simp only [List.mem_cons]
        constructor
        · intro hok x hx
          rcases hx with hx | hx
          · subst hx; exact hf
          · exact (ih.2.1.mp hok) x hx
        · intro hall
          exact ih.2.1.mpr (fun x hx => hall x (Or.inr hx))
      · intro i h hidx
        rw [List.findIdx_cons] at hidx
        rw [hf] at hidx
        simp at hidx
        cases i with
        | zero => omega
        | succ j =>
          have hj : rest.findIdx closeFails = j := by omega
          rw [appClose_cons_ok t rest hf]
          have hjl : j < rest.length := by
            simp at h
            omega
          have := ih.2.2 j hjl hj
          simpa using this

/-- C3 witness: the amended statement applied to the two-open-sink shutdown
situation whose first close fails. -/
theorem c3_close_first_failure_amended_witness :
    (appClose twoOpenTables).1 = ["a"] ∧
    (appClose twoOpenTables).2 = .error ("Failed to close csv files: " ++ "disk full") := by
  have h := c3_close_first_failure_amended twoOpenTables
  refine ⟨?_, ?_⟩
  · rw [h.1]
    rfl
  · exact h.2.2 0 (by decide) rfl

/-- The writer does not read the table filter. -/
theorem writeRecord_setFilter (cfg : Config) (f : String) (row : List Expr) :
    writeRecord { cfg with tableFilter := f } row = writeRecord cfg row := rfl

/-- The row loop does not read the table filter. -/
theorem writeRowsAux_setFilter (cfg : Config) (f : String) (idx : Nat) :
    ∀ (vs : List (List Expr)) (sinks : List Sink),
      writeRowsAux { cfg with tableFilter := f } idx vs sinks
        = writeRowsAux cfg idx vs sinks := by
  intro vs
  induction vs with
  | nil => intro sinks; rfl
  | cons row rest ih =>
    intro sinks
    simp only [writeRowsAux, writeRecord_setFilter]
    cases writeRecord cfg row with
    | error e => rfl
    | ok s => exact ih (bumpRows idx sinks)

/-- Opening a sink does not read the table filter. -/
theorem openCsv_setFilter (cfg : Config) (f : String) (app : App) (t : Table) :
    openCsv { cfg with tableFilter := f } app t = openCsv cfg app t := rfl

/-- The write tail of `insert` does not read the table filter. -/
theorem insertWrite_setFilter (cfg : Config) (f : String) (app : App) (name : String)
    (t : Table) (idx : Nat) (rows : Rows) :
    insertWrite { cfg with tableFilter := f } app name t idx rows
      = insertWrite cfg app name t idx rows := by
  cases rows with
  | otherRows => rfl
  | values vs => simp only [insertWrite, writeRowsAux_setFilter]

/-- The open-and-write tail of `insert` does not read the table filter. -/
theorem insertOpenAndWrite_setFilter (cfg : Config) (f : String) (app : App) (name : String)
    (t : Table) (rows : Rows) :
    insertOpenAndWrite { cfg with tableFilter := f } app name t rows
      = insertOpenAndWrite cfg app name t rows := by
  unfold insertOpenAndWrite
  cases hc : t.csv with
  | some idx => simp only [hc, insertWrite_setFilter]
  | none => simp only [hc, openCsv_setFilter, insertWrite_setFilter]

/-- Table resolution does not read the table filter. -/
theorem insertResolve_setFilter (cfg : Config) (f : String) (app : App) (name : String)
    (rows : Rows) :
    insertResolve { cfg with tableFilter := f } app name rows
      = insertResolve cfg app name rows := by
  unfold insertResolve
  cases hl : lookupTable name app.tables with
  | some t => simp only [hl, insertOpenAndWrite_setFilter]
  | none => simp only [hl, insertOpenAndWrite_setFilter]

/-- C9 amended: an INSERT without an explicit column list whose table name
differs from the configured filter is discarded with no effect at all — the
state is returned unchanged, so nothing is written or counted — while an
INSERT for the filtered table itself is handled exactly as it would be with
no filter configured.  (An INSERT with an explicit column list fails before
the filter is consulted.) -/
theorem c9_filter_amended :
    (∀ (cfg : Config) (app : App) (name : String) (rows : Rows),
        cfg.tableFilter ≠ "" → name ≠ cfg.tableFilter →
        insertStmt cfg app name [] rows = .ok app) ∧
    (∀ (cfg : Config) (app : App) (cols : List String) (rows : Rows),
        insertStmt cfg app cfg.tableFilter cols rows
          = insertStmt (clearFilter cfg) app cfg.tableFilter cols rows) := by
  constructor
  · intro cfg app name rows h1 h2
    unfold insertStmt
    rw [if_neg (by simp), if_pos ⟨h1, Ne.symm h2⟩]
  · intro cfg app cols rows
    by_cases hcols : cols = []
    · subst hcols
      unfold insertStmt
      have hLf : ¬(cfg.tableFilter ≠ "" ∧ cfg.tableFilter ≠ cfg.tableFilter) := by simp
      have hRf : ¬((clearFilter cfg).tableFilter ≠ ""
          ∧ (clearFilter cfg).tableFilter ≠ cfg.tableFilter) := by
        simp [clearFilter]
      rw [if_neg (by simp : ¬(([] : List String) ≠ [])),
        if_neg (by simp : ¬(([] : List String) ≠ []))]
      rw [if_neg hLf, if_neg hRf]
      exact (insertResolve_setFilter cfg "" app cfg.tableFilter rows).symm
    · unfold insertStmt
      rw [if_pos hcols, if_pos hcols]

/-- C9 witness: with the filter set to `page`, a plain INSERT for another
table is a no-op on the state, and an INSERT for `page` equals its unfiltered
handling. -/
theorem c9_filter_amended_witness :
    insertStmt cfgFilterPage initApp "other" [] (.values (oneIntRow "9")) = .ok initApp ∧
    insertStmt cfgFilterPage initApp "page" [] (.values (oneIntRow "9"))
      = insertStmt (clearFilter cfgFilterPage) initApp "page" [] (.values (oneIntRow "9")) := by
  constructor
  · exact c9_filter_amended.1 cfgFilterPage initApp "other" (.values (oneIntRow "9"))
      (by decide) (by decide)
  · exact c9_filter_amended.2 cfgFilterPage initApp [] (.values (oneIntRow "9"))

/-! ## Support lemmas about the registry and the sink list -/

/-- Looking up the key just written returns the written table. -/
theorem lookupTable_updateTable_self (n : String) :
    ∀ (t : Table) (l : List (String × Table)), lookupTable n (updateTable n t l) = some t := by
  intro t l
  induction l with
  | nil => simp [updateTable, lookupTable]
  | cons p r ih =>
    by_cases hk : p.1 = n
    · simp [updateTable, hk, lookupTable]
    · simp [updateTable, hk, lookupTable, ih]

/-- Writing one key leaves every other key's lookup unchanged. -/
theorem lookupTable_updateTable_ne (n m : String) (h : m ≠ n) :
    ∀ (t : Table) (l : List (String × Table)),
      lookupTable m (updateTable n t l) = lookupTable m l := by
  intro t l
  induction l with
  | nil => simp [updateTable, lookupTable, Ne.symm h]
  | cons p r ih =>
    obtain ⟨k, u⟩ := p
    by_cases hk : k = n
    · subst hk
      simp [updateTable, lookupTable, Ne.symm h]
    · simp [updateTable, hk, lookupTable, ih]

/-- Every entry after a map write is the written pair or an old entry. -/
theorem mem_updateTable (n : String) (t : Table) :
    ∀ (l : List (String × Table)) (p : String × Table),
      p ∈ updateTable n t l → p = (n, t) ∨ p ∈ l := by
  intro l
  induction l with
  | nil => intro p hp; simpa [updateTable] using hp
  | cons q r ih =>
    intro p hp
    by_cases hk : q.1 = n
    · rw [updateTable, if_pos hk] at hp
      rcases List.mem_cons.mp hp with h | h
      · exact Or.inl h
      · exact Or.inr (List.mem_cons_of_mem q h)
    · rw [updateTable, if_neg hk] at hp
      rcases List.mem_cons.mp hp with h | h
      · exact Or.inr (h ▸ List.mem_cons_self q r)
      · rcases ih p h with h2 | h2
        · exact Or.inl h2
        · exact Or.inr (List.mem_cons_of_mem q h2)

/-- A successful lookup comes from an entry of the list. -/
theorem lookupTable_mem (n : String) (t : Table) :
    ∀ l : List (String × Table), lookupTable n l = some t → (n, t) ∈ l := by
  intro l
  induction l with
  | nil => intro h; exact absurd h (by simp [lookupTable])
  | cons p r ih =>
    obtain ⟨k, u⟩ := p
    intro h
    by_cases hk : k = n
    · subst hk
      rw [lookupTable, if_pos rfl] at h
      injection h with h2
      subst h2
      exact List.mem_cons_self _ _
    · rw [lookupTable, if_neg hk] at h
      exact List.mem_cons_of_mem (k, u) (ih h)

/-- Indexing after a row bump: only the bumped position changes, and only its
row counter. -/
theorem bumpRows_getElem? (i : Nat) (l : List Sink) (j : Nat) :
    (bumpRows i l)[j]?
      = (l[j]?).map
          (fun s => if j = i then { s with rowsWritten := s.rowsWritten + 1 } else s) := by
  induction l generalizing i j with
  | nil => simp [bumpRows]
  | cons s r ih =>
    cases i with
    | zero =>
      cases j with
      | zero => simp [bumpRows]
      | succ k => simp [bumpRows]
    | succ m =>
      cases j with
      | zero => simp [bumpRows]
      | succ k => simp [bumpRows, ih m k]

/-- A bump never changes the sink list's length. -/
theorem bumpRows_length (i : Nat) (l : List Sink) :
    (bumpRows i l).length = l.length := by
  induction l generalizing i with
  | nil => simp [bumpRows]
  | cons s r ih =>
    cases i with
    | zero => rfl
    | succ m => simp [bumpRows, ih m]

/-- Every sink after a bump has the header fields of a sink of the original
list. -/
theorem mem_bumpRows (i : Nat) (l : List Sink) (s : Sink) (h : s ∈ bumpRows i l) :
    ∃ s0 ∈ l, s.table = s0.table ∧ s.columnsAtOpen = s0.columnsAtOpen
      ∧ s.headerLines = s0.headerLines := by
  induction l generalizing i with
  | nil => simp [bumpRows] at h
  | cons s1 r ih =>
    cases i with
    | zero =>
      rcases List.mem_cons.mp h with h2 | h2
      · exact ⟨s1, List.mem_cons_self s1 r, by simp [h2]⟩
      · exact ⟨s, List.mem_cons_of_mem s1 h2, rfl, rfl, rfl⟩
    | succ m =>
      rcases List.mem_cons.mp h with h2 | h2
      · exact ⟨s1, List.mem_cons_self s1 r, by simp [h2]⟩
      · rcases ih m h2 with ⟨s0, hs0, he⟩
        exact ⟨s0, List.mem_cons_of_mem s1 hs0, he⟩

/-- Written-row totals split over appended sink lists. -/
theorem rowsFor_append (t : String) (l1 l2 : List Sink) :
    rowsFor t (l1 ++ l2) = rowsFor t l1 + rowsFor t l2 := by
  induction l1 with
  | nil => simp [rowsFor]
  | cons s r ih => simp [rowsFor, ih]; omega

/-- Bumping a sink of the given table adds exactly one written row to that
table's total. -/
theorem rowsFor_bump_of_table (t : String) (i : Nat) (l : List Sink)
    (h : (l[i]?).map Sink.table = some t) :
    rowsFor t (bumpRows i l) = rowsFor t l + 1 := by
  induction l generalizing i with
  | nil => simp at h
  | cons s r ih =>
    cases i with
    | zero =>
      simp at h
      simp [bumpRows, rowsFor, h]
      omega
    | succ m =>
      simp at h
      have := ih m (by simpa using h)
      simp [bumpRows, rowsFor, this]
      omega

/-- Bumping a sink of another table leaves this table's total unchanged. -/
theorem rowsFor_bump_of_ne (t : String) (i : Nat) (l : List Sink)
    (h : ¬ (l[i]?).map Sink.table = some t) :
    rowsFor t (bumpRows i l) = rowsFor t l := by
  induction l generalizing i with
  | nil => simp [bumpRows]
  | cons s r ih =>
    cases i with
    | zero =>
      simp at h
      simp [bumpRows, rowsFor, h]
    | succ m =>
      simp at h
      have := ih m (by simpa using h)
      simp [bumpRows, rowsFor, this]

/-- A successful row loop never changes which table each sink position
belongs to. -/
theorem writeRowsAux_ok_table (cfg : Config) (idx : Nat) :
    ∀ (vs : List (List Expr)) (l l2 : List Sink),
      writeRowsAux cfg idx vs l = .ok l2 →
      ∀ j : Nat, (l2[j]?).map Sink.table = (l[j]?).map Sink.table := by
  intro vs
  induction vs with
  | nil =>
    intro l l2 h j
    cases h
    rfl
  | cons row rest ih =>
    intro l l2 h j
    rw [writeRowsAux] at h
    cases hw : writeRecord cfg row with
    | error e => rw [hw] at h; exact absurd h (by simp)
    | ok s =>
      rw [hw] at h
      have h2 := ih (bumpRows idx l) l2 h j
      rw [h2, bumpRows_getElem?]
      cases l[j]? with
      | none => rfl
      | some s0 => by_cases hj : j = idx <;> simp [hj]

/-- A successful row loop over a sink of the given table adds the tuple count
to that table's written total. -/
theorem writeRowsAux_ok_rowsFor_eq (cfg : Config) (idx : Nat) (t : String) :
    ∀ (vs : List (List Expr)) (l l2 : List Sink),
      writeRowsAux cfg idx vs l = .ok l2 →
      (l[idx]?).map Sink.table = some t →
      rowsFor t l2 = rowsFor t l + vs.length := by
  intro vs
  induction vs with
  | nil =>
    intro l l2 h ht
    cases h
    simp
  | cons row rest ih =>
    intro l l2 h ht
    rw [writeRowsAux] at h
    cases hw : writeRecord cfg row with
    | error e => rw [hw] at h; exact absurd h (by simp)
    | ok s =>
      rw [hw] at h
      have hbt : ((bumpRows idx l)[idx]?).map Sink.table = some t := by
        rw [bumpRows_getElem?]
        cases hx : l[idx]? with
        | none => rw [hx] at ht; exact absurd ht (by simp)
        | some s0 =>
          rw [hx] at ht
          simp at ht
          simp [ht]
      have h2 := ih (bumpRows idx l) l2 h hbt
      rw [h2, rowsFor_bump_of_table t idx l ht, List.length_cons]
      omega

/-- A successful row loop over a sink of another table leaves this table's
written total unchanged. -/
theorem writeRowsAux_ok_rowsFor_ne (cfg : Config) (idx : Nat) (t : String) :
    ∀ (vs : List (List Expr)) (l l2 : List Sink),
      writeRowsAux cfg idx vs l = .ok l2 →
      ¬ (l[idx]?).map Sink.table = some t →
      rowsFor t l2 = rowsFor t l := by
  intro vs
  induction vs with
  | nil =>
    intro l l2 h ht
    cases h
    rfl
  | cons row rest ih =>
    intro l l2 h ht
    rw [writeRowsAux] at h
    cases hw : writeRecord cfg row with
    | error e => rw [hw] at h; exact absurd h (by simp)
    | ok s =>
      rw [hw] at h
      have hbt : ¬ ((bumpRows idx l)[idx]?).map Sink.table = some t := by
        rw [bumpRows_getElem?]
        cases hx : l[idx]? with
        | none => simp
        | some s0 =>
          rw [hx] at ht
          simp at ht
          simp [ht]
      have h2 := ih (bumpRows idx l) l2 h hbt
      rw [h2, rowsFor_bump_of_ne t idx l ht]

/-- Every sink after a successful row loop has the header fields of a sink of
the original list. -/
theorem writeRowsAux_ok_mem (cfg : Config) (idx : Nat) :
    ∀ (vs : List (List Expr)) (l l2 : List Sink),
      writeRowsAux cfg idx vs l = .ok l2 →
      ∀ s ∈ l2, ∃ s0 ∈ l, s.table = s0.table ∧ s.columnsAtOpen = s0.columnsAtOpen
        ∧ s.headerLines = s0.headerLines := by
  intro vs
  induction vs with
  | nil =>
    intro l l2 h s hs
    cases h
    exact ⟨s, hs, rfl, rfl, rfl⟩
  | cons row rest ih =>
    intro l l2 h s hs
    rw [writeRowsAux] at h
    cases hw : writeRecord cfg row with
    | error e => rw [hw] at h; exact absurd h (by simp)
    | ok str =>
      rw [hw] at h
      rcases ih (bumpRows idx l) l2 h s hs with ⟨s1, hs1, he1, he2, he3⟩
      rcases mem_bumpRows idx l s1 hs1 with ⟨s0, hs0, hf1, hf2, hf3⟩
      exact ⟨s0, hs0, he1.trans hf1, he2.trans hf2, he3.trans hf3⟩

/-! ## Header discipline (C4) -/

/-- Shape of the sink list after `openCsv`: the old sinks plus one fresh sink
for the table, with a header exactly when headers are enabled and the column
list is known. -/
theorem openCsv_sinks (cfg : Config) (app : App) (t : Table) :
    (openCsv cfg app t).1.sinks
      = app.sinks
          ++ [⟨t.name, t.columns, if cfg.header = true ∧ t.columns ≠ [] then 1 else 0, 0⟩] := by
  rw [openCsv]
  by_cases h1 : cfg.header = true <;> by_cases h2 : t.columns = [] <;> simp [h1, h2]

/-- Shape of the log after `openCsv`: the multi-mode creation line and, when
headers are enabled but the columns unknown, the no-header diagnostic. -/
theorem openCsv_logs (cfg : Config) (app : App) (t : Table) :
    (openCsv cfg app t).1.logs
      = app.logs ++ (if cfg.multi = true then [creatingMsg t.name] else [])
          ++ (if cfg.header = true ∧ t.columns = [] then [noHeaderMsg t.name] else []) := by
  rw [openCsv]
  by_cases h1 : cfg.header = true <;> by_cases h2 : t.columns = [] <;>
    by_cases h3 : cfg.multi = true <;> simp [h1, h2, h3]

/-- The registry is untouched by `openCsv`. -/
theorem openCsv_tables (cfg : Config) (app : App) (t : Table) :
    (openCsv cfg app t).1.tables = app.tables := rfl

/-- The table returned by `openCsv` points at the freshly appended sink. -/
theorem openCsv_snd (cfg : Config) (app : App) (t : Table) :
    (openCsv cfg app t).2 = { t with csv := some app.sinks.length } := rfl

/-- The header discipline only reads sinks and logs, so changing the registry
preserves it. -/
theorem headerOk_setTables (cfg : Config) (app : App) (tb : List (String × Table))
    (h : HeaderOk cfg app) : HeaderOk cfg { app with tables := tb } :=
  fun s hs => h s hs

/-- Opening a sink preserves the header discipline. -/
theorem headerOk_openCsv (cfg : Config) (app : App) (t : Table) (h : HeaderOk cfg app) :
    HeaderOk cfg (openCsv cfg app t).1 := by
  intro s hs
  rw [openCsv_sinks] at hs
  rcases List.mem_append.mp hs with hmem | hmem
  · rcases h s hmem with ⟨h1, h2, h3⟩
    refine ⟨h1, h2, fun hh hc => ?_⟩
    rw [openCsv_logs]
    exact List.mem_append.mpr (Or.inl (List.mem_append.mpr (Or.inl (h3 hh hc))))
  · have hseq : s
        = ⟨t.name, t.columns, if cfg.header = true ∧ t.columns ≠ [] then 1 else 0, 0⟩ := by
      simpa using hmem
    subst hseq
    refine ⟨?_, ?_, ?_⟩
    · by_cases hc : cfg.header = true ∧ t.columns ≠ [] <;> simp [hc]
    · by_cases hc : cfg.header = true ∧ t.columns ≠ [] <;> simp [hc]
    · intro hh hc
      rw [openCsv_logs]
      have hcols : t.columns = [] := hc
      refine List.mem_append.mpr (Or.inr ?_)
      rw [if_pos ⟨hh, hcols⟩]
      exact List.mem_singleton.mpr rfl

/-- The write tail preserves the header discipline. -/
theorem headerOk_insertWrite (cfg : Config) (app : App) (name : String) (t : Table)
    (idx : Nat) (rows : Rows) (app2 : App)
    (hp : insertWrite cfg app name t idx rows = .ok app2) (h : HeaderOk cfg app) :
    HeaderOk cfg app2 := by
  cases rows with
  | otherRows => exact absurd hp (by simp [insertWrite])
  | values vs =>
    rw [insertWrite] at hp
    cases hw : writeRowsAux cfg idx vs app.sinks with
    | error e => rw [hw] at hp; exact absurd hp (by simp)
    | ok sinks2 =>
      rw [hw] at hp
      injection hp with hp2
      subst hp2
      intro s hs
      rcases writeRowsAux_ok_mem cfg idx vs app.sinks sinks2 hw s hs with ⟨s0, hs0, e1, e2, e3⟩
      rcases h s0 hs0 with ⟨h1, h2, h3⟩
      refine ⟨by rw [e3]; exact h1, by rw [e3, e2]; exact h2, fun hh hc => ?_⟩
      rw [e1]
      rw [e2] at hc
      exact h3 hh hc

/-- The open-and-write tail preserves the header discipline. -/
theorem headerOk_insertOpenAndWrite (cfg : Config) (app : App) (name : String) (t : Table)
    (rows : Rows) (app2 : App)
    (hp : insertOpenAndWrite cfg app name t rows = .ok app2) (h : HeaderOk cfg app) :
    HeaderOk cfg app2 := by
  rw [insertOpenAndWrite] at hp
  cases hc : t.csv with
  | some idx =>
    rw [hc] at hp
    exact headerOk_insertWrite cfg app name t idx rows app2 hp h
  | none =>
    rw [hc] at hp
    exact headerOk_insertWrite _ _ _ _ _ _ _ hp
      (headerOk_setTables _ _ _ (headerOk_openCsv cfg app t h))

/-- Table resolution preserves the header discipline. -/
theorem headerOk_insertResolve (cfg : Config) (app : App) (name : String)
    (rows : Rows) (app2 : App)
    (hp : insertResolve cfg app name rows = .ok app2) (h : HeaderOk cfg app) :
    HeaderOk cfg app2 := by
  rw [insertResolve] at hp
  cases hl : lookupTable name app.tables with
  | some t =>
    rw [hl] at hp
    exact headerOk_insertOpenAndWrite cfg app name t rows app2 hp h
  | none =>
    rw [hl] at hp
    by_cases hm : ¬cfg.multi = true ∧ 1 ≤ app.tables.length
    · rw [if_pos hm] at hp
      exact absurd hp (by simp)
    · rw [if_neg hm] at hp
      exact headerOk_insertOpenAndWrite _ _ _ _ _ _ hp (headerOk_setTables _ _ _ h)

/-- An INSERT preserves the header discipline. -/
theorem headerOk_insertStmt (cfg : Config) (app : App) (name : String)
    (cols : List String) (rows : Rows) (app2 : App)
    (hp : insertStmt cfg app name cols rows = .ok app2) (h : HeaderOk cfg app) :
    HeaderOk cfg app2 := by
  rw [insertStmt] at hp
  by_cases h1 : cols ≠ []
  · rw [if_pos h1] at hp
    exact absurd hp (by simp)
  · rw [if_neg h1] at hp
    by_cases h2 : cfg.tableFilter ≠ "" ∧ cfg.tableFilter ≠ name
    · rw [if_pos h2] at hp
      injection hp with hp2
      subst hp2
      exact h
    · rw [if_neg h2] at hp
      exact headerOk_insertResolve cfg app name rows app2 hp h

/-- A CREATE TABLE preserves the header discipline. -/
theorem headerOk_createStmt (cfg : Config) (app : App) (name : String)
    (spec : Option (List String)) (app2 : App)
    (hp : createStmt cfg app name spec = .ok app2) (h : HeaderOk cfg app) :
    HeaderOk cfg app2 := by
  unfold createStmt at hp
  injection hp with hp2
  subst hp2
  intro s hs
  rcases h s hs with ⟨h1, h2, h3⟩
  exact ⟨h1, h2, fun hh hc => List.mem_append.mpr (Or.inl (h3 hh hc))⟩

/-- Each processed statement preserves the header discipline. -/
theorem headerOk_processStmt (cfg : Config) (app : App) (s : Stmt) (app2 : App)
    (hp : processStmt cfg app s = .ok app2) (h : HeaderOk cfg app) :
    HeaderOk cfg app2 := by
  cases s with
  | insert n c r => exact headerOk_insertStmt cfg app n c r app2 hp h
  | createTable n spec => exact headerOk_createStmt cfg app n spec app2 hp h
  | otherStmt =>
    injection hp with hp2
    subst hp2
    exact h

/-- The statement loop preserves the header discipline. -/
theorem headerOk_processList (cfg : Config) :
    ∀ (stmts : List Stmt) (app app2 : App),
      processList cfg stmts app = .ok app2 → HeaderOk cfg app → HeaderOk cfg app2 := by
  intro stmts
  induction stmts with
  | nil =>
    intro app app2 hp h
    injection hp with hp2
    subst hp2
    exact h
  | cons s rest ih =>
    intro app app2 hp h
    rw [processList] at hp
    cases hs : processStmt cfg app s with
    | error e => rw [hs] at hp; exact absurd hp (by simp)
    | ok app1 =>
      rw [hs] at hp
      exact ih app1 app2 hp (headerOk_processStmt cfg app s app1 hs h)

/-- C4: over any run, every sink carries at most one header line; the header
is present exactly when headers are enabled and the table's column list was
known at sink-open time; and whenever headers are enabled but the columns are
unknown the diagnostic is logged.  Moreover `openCsv` with unknown columns
opens the sink without a header and logs the diagnostic instead of failing
(it is a total function). -/
theorem c4_header_at_most_once :
    (∀ (cfg : Config) (stmts : List Stmt) (app2 : App),
        processList cfg stmts initApp = .ok app2 →
        ∀ s ∈ app2.sinks,
          s.headerLines ≤ 1 ∧
          (s.headerLines = 1 ↔ (cfg.header = true ∧ s.columnsAtOpen ≠ [])) ∧
          (cfg.header = true → s.columnsAtOpen = [] → noHeaderMsg s.table ∈ app2.logs)) ∧
    (∀ (cfg : Config) (app : App) (t : Table), cfg.header = true → t.columns = [] →
        (openCsv cfg app t).1.sinks = app.sinks ++ [⟨t.name, t.columns, 0, 0⟩] ∧
        noHeaderMsg t.name ∈ (openCsv cfg app t).1.logs ∧
        (openCsv cfg app t).2.csv = some app.sinks.length) := by
  constructor
  · intro cfg stmts app2 hp
    exact headerOk_processList cfg stmts initApp app2 hp (fun s hs => by simp [initApp] at hs)
  · intro cfg app t hh hc
    refine ⟨?_, ?_, ?_⟩
    · rw [openCsv_sinks]
      have : ¬(cfg.header = true ∧ t.columns ≠ []) := by simp [hc]
      rw [if_neg this]
    · rw [openCsv_logs]
      refine List.mem_append.mpr (Or.inr ?_)
      rw [if_pos ⟨hh, hc⟩]
      exact List.mem_singleton.mpr rfl
    · rw [openCsv_snd]

/-- C4 witness: processing a single INSERT for a table with no declared
schema, with headers enabled, opens one sink without a header and logs the
diagnostic. -/
theorem c4_header_at_most_once_witness :
    noSchemaApp.sinks = [⟨"page", [], 0, 1⟩] ∧
    (0 : Nat) ≤ 1 ∧
    noHeaderMsg "page" ∈ noSchemaApp.logs := by
  have hmem : (⟨"page", [], 0, 1⟩ : Sink) ∈ noSchemaApp.sinks := by decide
  have h := c4_header_at_most_once.1 cfgDefault noSchemaStmts noSchemaApp rfl
    ⟨"page", [], 0, 1⟩ hmem
  exact ⟨rfl, h.1, h.2.2 rfl rfl⟩

/-! ## Row accounting (C5) -/

/-- Decomposition of a successful `insertWrite`. -/
theorem insertWrite_ok_shape (cfg : Config) (app : App) (name : String) (t : Table)
    (idx : Nat) (rows : Rows) (app2 : App)
    (hp : insertWrite cfg app name t idx rows = .ok app2) :
    ∃ vs sinks2, rows = .values vs ∧ writeRowsAux cfg idx vs app.sinks = .ok sinks2 ∧
      app2 = App.mk (updateTable name { t with count := t.count + vs.length } app.tables)
        sinks2 app.logs := by
  cases rows with
  | otherRows => exact absurd hp (by simp [insertWrite])
  | values vs =>
    rw [insertWrite] at hp
    cases hw : writeRowsAux cfg idx vs app.sinks with
    | error e => rw [hw] at hp; exact absurd hp (by simp)
    | ok sinks2 =>
      rw [hw] at hp
      injection hp with hp2
      exact ⟨vs, sinks2, rfl, hw, hp2.symm⟩

/-- Row totals over a one-sink list. -/
theorem rowsFor_singleton (t : String) (s : Sink) :
    rowsFor t [s] = if s.table = t then s.rowsWritten else 0 := by
  simp [rowsFor]

/-- The open-and-write tail, entered with a registry entry for the name,
preserves registry well-formedness and per-table count correctness, and does
not touch any other table's entry or written rows. -/
theorem step_insertOpenAndWrite (cfg : Config) (tname : String) (app : App) (name : String)
    (tb : Table) (rows : Rows) (app2 : App)
    (hp : insertOpenAndWrite cfg app name tb rows = .ok app2)
    (hReg : RegistryOk app) (hCnt : CountOk tname app)
    (hEntry : lookupTable name app.tables = some tb) :
    RegistryOk app2 ∧ CountOk tname app2 ∧
    (name ≠ tname → lookupTable tname app2.tables = lookupTable tname app.tables ∧
                    rowsFor tname app2.sinks = rowsFor tname app.sinks) := by
  have hmem : (name, tb) ∈ app.tables := lookupTable_mem name tb app.tables hEntry
  have hent := hReg (name, tb) hmem
  have hname : tb.name = name := hent.1
  rw [insertOpenAndWrite] at hp
  cases hcsv : tb.csv with
  | some idx =>
    rw [hcsv] at hp
    rcases insertWrite_ok_shape cfg app name tb idx rows app2 hp with ⟨vs, sinks2, hr, hw, ha⟩
    subst ha
    dsimp only
    have hptr : (app.sinks[idx]?).map Sink.table = some name := hent.2 idx hcsv
    have htab := writeRowsAux_ok_table cfg idx vs app.sinks sinks2 hw
    refine ⟨?_, ?_, ?_⟩
    · intro p hp2
      rcases mem_updateTable name _ app.tables p hp2 with h | h
      · subst h
        refine ⟨hname, ?_⟩
        intro i hi
        have h6 : tb.csv = some i := hi
        rw [hcsv] at h6
        injection h6 with h7
        subst h7
        rw [htab idx]
        exact hptr
      · rcases hReg p h with ⟨h1, h2⟩
        exact ⟨h1, fun i hi => (htab i).trans (h2 i hi)⟩
    · by_cases hnt : name = tname
      · subst hnt
        unfold CountOk
        rw [lookupTable_updateTable_self name]
        have hCnt2 : tb.count = rowsFor name app.sinks := by
          unfold CountOk at hCnt
          rw [hEntry] at hCnt
          exact hCnt.1
        constructor
        · rw [writeRowsAux_ok_rowsFor_eq cfg idx name vs app.sinks sinks2 hw hptr, hCnt2]
        · intro hnone
          have : tb.csv = some idx := hcsv
          rw [hnone] at this
          exact absurd this (by simp)
      · have hlk : lookupTable tname
            (updateTable name { tb with count := tb.count + vs.length } app.tables)
            = lookupTable tname app.tables :=
          lookupTable_updateTable_ne name tname (fun hh => hnt hh.symm) _ app.tables
        have hrf : rowsFor tname sinks2 = rowsFor tname app.sinks := by
          refine writeRowsAux_ok_rowsFor_ne cfg idx tname vs app.sinks sinks2 hw ?_
          rw [hptr]
          intro hcontra
          injection hcontra with hcontra2
          exact hnt hcontra2
        unfold CountOk
        unfold CountOk at hCnt
        rw [hlk, hrf]
        exact hCnt
    · intro hnt
      constructor
      · exact lookupTable_updateTable_ne name tname (fun hh => hnt hh.symm) _ app.tables
      · refine writeRowsAux_ok_rowsFor_ne cfg idx tname vs app.sinks sinks2 hw ?_
        rw [hptr]
        intro hcontra
        injection hcontra with hcontra2
        exact hnt hcontra2
  | none =>
    rw [hcsv] at hp
    rcases insertWrite_ok_shape cfg _ name _ _ rows app2 hp with ⟨vs, sinks2, hr, hw0, ha⟩
    have hw : writeRowsAux cfg app.sinks.length vs (openCsv cfg app tb).1.sinks
        = .ok sinks2 := hw0
    subst ha
    dsimp only
    have hsinksM : (openCsv cfg app tb).1.sinks
        = app.sinks
            ++ [⟨tb.name, tb.columns, if cfg.header = true ∧ tb.columns ≠ [] then 1 else 0, 0⟩] :=
      openCsv_sinks cfg app tb
    have hlen : app.sinks.length < (openCsv cfg app tb).1.sinks.length := by
      rw [hsinksM, List.length_append]
      simp
    have hptr : ((openCsv cfg app tb).1.sinks[app.sinks.length]?).map Sink.table = some name := by
      rw [hsinksM, List.getElem?_concat_length]
      simp [hname]
    have htab := writeRowsAux_ok_table cfg app.sinks.length vs _ sinks2 hw
    have hold : ∀ i : Nat, i < app.sinks.length →
        ((openCsv cfg app tb).1.sinks[i]?) = app.sinks[i]? := by
      intro i hi
      rw [hsinksM, List.getElem?_append, if_pos hi]
    refine ⟨?_, ?_, ?_⟩
    · intro p hp2
      rcases mem_updateTable name _ _ p hp2 with h | h
      · subst h
        refine ⟨hname, ?_⟩
        intro i hi
        have hieq : some app.sinks.length = some i := hi
        injection hieq with hieq2
        subst hieq2
        rw [htab _]
        exact hptr
      · rcases mem_updateTable name _ _ p h with h2 | h2
        · subst h2
          refine ⟨hname, ?_⟩
          intro i hi
          have hieq : some app.sinks.length = some i := hi
          injection hieq with hieq2
          subst hieq2
          rw [htab _]
          exact hptr
        · rcases hReg p h2 with ⟨h3, h4⟩
          refine ⟨h3, ?_⟩
          intro i hi
          have h5 := h4 i hi
          have hilt : i < app.sinks.length := by
            by_contra hge
            have : app.sinks[i]? = none := by
              rw [List.getElem?_eq_none]
              omega
            rw [this] at h5
            exact absurd h5 (by simp)
          rw [htab i, hold i hilt]
          exact h5
    · by_cases hnt : name = tname
      · subst hnt
        unfold CountOk
        rw [lookupTable_updateTable_self name]
        have hc0 : tb.count = rowsFor name app.sinks ∧ rowsFor name app.sinks = 0 := by
          unfold CountOk at hCnt
          rw [hEntry] at hCnt
          exact ⟨hCnt.1, hCnt.2 hcsv⟩
        have hrfM : rowsFor name (openCsv cfg app tb).1.sinks = 0 := by
          rw [hsinksM, rowsFor_append, rowsFor_singleton]
          simp [hc0.2]
        constructor
        · rw [writeRowsAux_ok_rowsFor_eq cfg _ name vs _ sinks2 hw hptr, hrfM]
          show (openCsv cfg app tb).2.count + vs.length = 0 + vs.length
          have hcc : (openCsv cfg app tb).2.count = tb.count := rfl
          rw [hcc, hc0.1, hc0.2]
        · intro hnone
          have h8 : some app.sinks.length = (none : Option Nat) := hnone
          exact absurd h8 (by simp)
      · have hrfM : rowsFor tname (openCsv cfg app tb).1.sinks = rowsFor tname app.sinks := by
          rw [hsinksM, rowsFor_append, rowsFor_singleton]
          have htn : tb.name ≠ tname := by rw [hname]; exact hnt
          simp [htn]
        have hrf : rowsFor tname sinks2 = rowsFor tname app.sinks := by
          have hne : ¬ ((openCsv cfg app tb).1.sinks[app.sinks.length]?).map Sink.table
              = some tname := by
            rw [hptr]
            intro hcontra
            injection hcontra with hcontra2
            exact hnt hcontra2
          rw [writeRowsAux_ok_rowsFor_ne cfg _ tname vs _ sinks2 hw hne, hrfM]
        unfold CountOk
        unfold CountOk at hCnt
        rw [lookupTable_updateTable_ne name tname (fun hh => hnt hh.symm),
          lookupTable_updateTable_ne name tname (fun hh => hnt hh.symm), openCsv_tables,
          hrf]
        exact hCnt
    · intro hnt
      have hrfM : rowsFor tname (openCsv cfg app tb).1.sinks = rowsFor tname app.sinks := by
        rw [hsinksM, rowsFor_append, rowsFor_singleton]
        have htn : tb.name ≠ tname := by rw [hname]; exact hnt
        simp [htn]
      have hrf : rowsFor tname sinks2 = rowsFor tname app.sinks := by
        have hne : ¬ ((openCsv cfg app tb).1.sinks[app.sinks.length]?).map Sink.table
            = some tname := by
          rw [hptr]
          intro hcontra
          injection hcontra with hcontra2
          exact hnt hcontra2
        rw [writeRowsAux_ok_rowsFor_ne cfg _ tname vs _ sinks2 hw hne, hrfM]
      constructor
      · rw [lookupTable_updateTable_ne name tname (fun hh => hnt hh.symm),
          lookupTable_updateTable_ne name tname (fun hh => hnt hh.symm), openCsv_tables]
      · exact hrf

/-- Count correctness restated through a successful lookup. -/
theorem countOk_iff_of_lookup_some (t : String) (app : App) (tb : Table)
    (h : lookupTable t app.tables = some tb) :
    CountOk t app ↔ (tb.count = rowsFor t app.sinks ∧ (tb.csv = none → rowsFor t app.sinks = 0)) := by
  unfold CountOk
  rw [h]

/-- Count correctness restated through a failed lookup. -/
theorem countOk_iff_of_lookup_none (t : String) (app : App)
    (h : lookupTable t app.tables = none) :
    CountOk t app ↔ rowsFor t app.sinks = 0 := by
  unfold CountOk
  rw [h]

/-- A CREATE TABLE overwrites the entry wholesale: registry well-formedness
is preserved, sinks are untouched, other lookups are unchanged, and the
written entry is fresh — no sink, zero count. -/
theorem step_create (cfg : Config) (app : App) (name : String)
    (spec : Option (List String)) (app2 : App)
    (hp : createStmt cfg app name spec = .ok app2)
    (hReg : RegistryOk app) :
    RegistryOk app2 ∧ app2.sinks = app.sinks ∧
    (∀ m : String, m ≠ name → lookupTable m app2.tables = lookupTable m app.tables) ∧
    (∃ cols, lookupTable name app2.tables
        = some { name := name, columns := cols, csv := none, count := 0 }) := by
  unfold createStmt at hp
  injection hp with hp2
  subst hp2
  refine ⟨?_, rfl, ?_, ?_⟩
  · intro p hp2
    rcases mem_updateTable name _ app.tables p hp2 with h | h
    · subst h
      refine ⟨rfl, ?_⟩
      intro i hi
      have h3 : (none : Option Nat) = some i := hi
      exact absurd h3 (by simp)
    · exact hReg p h
  · intro m hm
    exact lookupTable_updateTable_ne name m hm _ app.tables
  · exact ⟨_, lookupTable_updateTable_self name _ app.tables⟩

/-- A CREATE TABLE preserves count correctness for `t` provided it does not
re-declare `t` while `t`'s sink is open. -/
theorem countOk_create (cfg : Config) (t : String) (app : App) (name : String)
    (spec : Option (List String)) (app2 : App)
    (hp : createStmt cfg app name spec = .ok app2)
    (hReg : RegistryOk app) (hCnt : CountOk t app)
    (hSafe : name = t → tableOpen app t = false) :
    CountOk t app2 := by
  rcases step_create cfg app name spec app2 hp hReg with ⟨_, hs, hne, ⟨cols, hself⟩⟩
  by_cases hn : name = t
  · subst hn
    have h0 : rowsFor name app.sinks = 0 := by
      have hop := hSafe rfl
      unfold tableOpen at hop
      cases hl : lookupTable name app.tables with
      | none => exact (countOk_iff_of_lookup_none name app hl).mp hCnt
      | some tb =>
        rw [hl] at hop
        have hop2 : tb.csv.isSome = false := hop
        cases hc : tb.csv with
        | some j => rw [hc] at hop2; exact absurd hop2 (by simp)
        | none => exact ((countOk_iff_of_lookup_some name app tb hl).mp hCnt).2 hc
    rw [countOk_iff_of_lookup_some name app2 _ hself, hs]
    exact ⟨h0.symm, fun _ => h0⟩
  · cases hl : lookupTable t app.tables with
    | none =>
      rw [countOk_iff_of_lookup_none t app2 (by rw [hne t (fun hh => hn hh.symm)]; exact hl), hs]
      exact (countOk_iff_of_lookup_none t app hl).mp hCnt
    | some tb =>
      rw [countOk_iff_of_lookup_some t app2 tb
        (by rw [hne t (fun hh => hn hh.symm)]; exact hl), hs]
      exact (countOk_iff_of_lookup_some t app tb hl).mp hCnt

/-- Table resolution preserves registry well-formedness and per-table count
correctness, and does not touch any other table. -/
theorem step_insertResolve (cfg : Config) (tname : String) (app : App) (name : String)
    (rows : Rows) (app2 : App)
    (hp : insertResolve cfg app name rows = .ok app2)
    (hReg : RegistryOk app) (hCnt : CountOk tname app) :
    RegistryOk app2 ∧ CountOk tname app2 ∧
    (name ≠ tname → lookupTable tname app2.tables = lookupTable tname app.tables ∧
                    rowsFor tname app2.sinks = rowsFor tname app.sinks) := by
  unfold insertResolve at hp
  cases hl : lookupTable name app.tables with
  | some tb =>
    rw [hl] at hp
    exact step_insertOpenAndWrite cfg tname app name tb rows app2 hp hReg hCnt hl
  | none =>
    rw [hl] at hp
    by_cases hm : ¬cfg.multi = true ∧ 1 ≤ app.tables.length
    · rw [if_pos hm] at hp
      exact absurd hp (by simp)
    · rw [if_neg hm] at hp
      have hp2 : insertOpenAndWrite cfg
          (App.mk (updateTable name { name := name, columns := [], csv := none, count := 0 }
            app.tables) app.sinks app.logs)
          name { name := name, columns := [], csv := none, count := 0 } rows = .ok app2 := hp
      have hReg1 : RegistryOk (App.mk (updateTable name
          { name := name, columns := [], csv := none, count := 0 } app.tables)
          app.sinks app.logs) := by
        intro p hp3
        rcases mem_updateTable name _ app.tables p hp3 with h | h
        · subst h
          refine ⟨rfl, ?_⟩
          intro i hi
          have h3 : (none : Option Nat) = some i := hi
          exact absurd h3 (by simp)
        · exact hReg p h
      have hCnt1 : CountOk tname (App.mk (updateTable name
          { name := name, columns := [], csv := none, count := 0 } app.tables)
          app.sinks app.logs) := by
        by_cases hn : name = tname
        · subst hn
          have h0 : rowsFor name app.sinks = 0 :=
            (countOk_iff_of_lookup_none name app hl).mp hCnt
          rw [countOk_iff_of_lookup_some name _ _ (lookupTable_updateTable_self name _ app.tables)]
          exact ⟨h0.symm, fun _ => h0⟩
        · cases hl2 : lookupTable tname app.tables with
          | none =>
            rw [countOk_iff_of_lookup_none tname _
              (by rw [show (App.mk (updateTable name _ app.tables) app.sinks app.logs).tables
                    = updateTable name _ app.tables from rfl,
                  lookupTable_updateTable_ne name tname (fun hh => hn hh.symm)]; exact hl2)]
            exact (countOk_iff_of_lookup_none tname app hl2).mp hCnt
          | some tb =>
            rw [countOk_iff_of_lookup_some tname _ tb
              (by rw [show (App.mk (updateTable name _ app.tables) app.sinks app.logs).tables
                    = updateTable name _ app.tables from rfl,
                  lookupTable_updateTable_ne name tname (fun hh => hn hh.symm)]; exact hl2)]
            exact (countOk_iff_of_lookup_some tname app tb hl2).mp hCnt
      rcases step_insertOpenAndWrite cfg tname _ name _ rows app2 hp2 hReg1 hCnt1
        (lookupTable_updateTable_self name _ app.tables) with ⟨hR2, hC2, hNe2⟩
      refine ⟨hR2, hC2, ?_⟩
      intro hnt
      rcases hNe2 hnt with ⟨ha, hb⟩
      refine ⟨?_, hb⟩
      rw [ha]
      exact lookupTable_updateTable_ne name tname (fun hh => hnt hh.symm) _ app.tables

/-- An INSERT preserves registry well-formedness and per-table count
correctness, and does not touch any other table. -/
theorem step_insertStmt (cfg : Config) (tname : String) (app : App) (name : String)
    (cols : List String) (rows : Rows) (app2 : App)
    (hp : insertStmt cfg app name cols rows = .ok app2)
    (hReg : RegistryOk app) (hCnt : CountOk tname app) :
    RegistryOk app2 ∧ CountOk tname app2 ∧
    (name ≠ tname → lookupTable tname app2.tables = lookupTable tname app.tables ∧
                    rowsFor tname app2.sinks = rowsFor tname app.sinks) := by
  unfold insertStmt at hp
  by_cases h1 : cols ≠ []
  · rw [if_pos h1] at hp
    exact absurd hp (by simp)
  · rw [if_neg h1] at hp
    by_cases h2 : cfg.tableFilter ≠ "" ∧ cfg.tableFilter ≠ name
    · rw [if_pos h2] at hp
      injection hp with hp2
      subst hp2
      exact ⟨hReg, hCnt, fun _ => ⟨rfl, rfl⟩⟩
    · rw [if_neg h2] at hp
      exact step_insertResolve cfg tname app name rows app2 hp hReg hCnt

/-- Unfolding steps of `lateCreate`. -/
theorem lateCreate_cons_create (t n : String) (spec : Option (List String))
    (r : List Stmt) (b : Bool) :
    lateCreate t (.createTable n spec :: r) b = ((b && (n == t)) || lateCreate t r b) := rfl

/-- Unfolding of `lateCreate` over an INSERT. -/
theorem lateCreate_cons_insert (t n : String) (c : List String) (rws : Rows)
    (r : List Stmt) (b : Bool) :
    lateCreate t (.insert n c rws :: r) b = lateCreate t r (b || (n == t)) := rfl

/-- Unfolding of `lateCreate` over an ignored statement. -/
theorem lateCreate_cons_other (t : String) (r : List Stmt) (b : Bool) :
    lateCreate t (.otherStmt :: r) b = lateCreate t r b := rfl

/-- If even the seen-insert flag cannot produce a late CREATE, no flag
can. -/
theorem lateCreate_false_of_true (t : String) :
    ∀ l : List Stmt, lateCreate t l true = false → ∀ b, lateCreate t l b = false := by
  intro l
  induction l with
  | nil => intro _ b; rfl
  | cons s r ih =>
    intro h b
    cases s with
    | createTable n spec =>
      rw [lateCreate_cons_create] at h
      rw [lateCreate_cons_create]
      rw [Bool.true_and] at h
      rcases Bool.or_eq_false_iff.mp h with ⟨h1, h2⟩
      rw [h1, Bool.and_false, Bool.false_or]
      exact ih h2 b
    | insert n c rws =>
      rw [lateCreate_cons_insert] at h
      rw [lateCreate_cons_insert]
      rw [Bool.true_or] at h
      exact ih h _
    | otherStmt =>
      rw [lateCreate_cons_other] at h
      rw [lateCreate_cons_other]
      exact ih h b

/-- Invariant preservation over the statement loop: registry shape and count
correctness for `t` hold at the end of any successful run whose remaining
statements never re-declare `t` after `t` has begun writing. -/
theorem countOk_processList (cfg : Config) (t : String) :
    ∀ (stmts : List Stmt) (app app2 : App),
      processList cfg stmts app = .ok app2 →
      RegistryOk app → CountOk t app →
      lateCreate t stmts (tableOpen app t) = false →
      RegistryOk app2 ∧ CountOk t app2 := by
  intro stmts
  induction stmts with
  | nil =>
    intro app app2 hp hReg hCnt _
    injection hp with hp2
    subst hp2
    exact ⟨hReg, hCnt⟩
  | cons s rest ih =>
    intro app app2 hp hReg hCnt hl
    rw [processList] at hp
    cases hs : processStmt cfg app s with
    | error e => rw [hs] at hp; exact absurd hp (by simp)
    | ok app1 =>
      rw [hs] at hp
      cases s with
      | otherStmt =>
        have ha : app1 = app := by
          have h2 := hs
          unfold processStmt at h2
          injection h2 with h3
          exact h3.symm
        subst ha
        rw [lateCreate_cons_other] at hl
        exact ih app1 app2 hp hReg hCnt hl
      | insert n c r =>
        rcases step_insertStmt cfg t app n c r app1 hs hReg hCnt with ⟨hR1, hC1, hNe⟩
        rw [lateCreate_cons_insert] at hl
        refine ih app1 app2 hp hR1 hC1 ?_
        by_cases hb1 : (tableOpen app t || (n == t)) = true
        · rw [hb1] at hl
          exact lateCreate_false_of_true t rest hl _
        · have hb0 : (tableOpen app t || (n == t)) = false := by
            cases hx : (tableOpen app t || (n == t))
            · rfl
            · exact absurd hx hb1
          rw [hb0] at hl
          rcases Bool.or_eq_false_iff.mp hb0 with ⟨ho, hn⟩
          have hnt : n ≠ t := by
            intro hh
            rw [hh] at hn
            simp at hn
          have hoo : tableOpen app1 t = tableOpen app t := by
            unfold tableOpen
            rw [(hNe hnt).1]
          rw [hoo, ho]
          exact hl
      | createTable n spec =>
        rw [lateCreate_cons_create] at hl
        rcases Bool.or_eq_false_iff.mp hl with ⟨h1, h2⟩
        have hSafe : n = t → tableOpen app t = false := by
          intro hh
          subst hh
          simpa using h1
        have hC1 := countOk_create cfg t app n spec app1 hs hReg hCnt hSafe
        rcases step_create cfg app n spec app1 hs hReg with ⟨hR1, hsk, hne, ⟨cols, hself⟩⟩
        refine ih app1 app2 hp hR1 hC1 ?_
        by_cases hn : n = t
        · subst hn
          have ho1 : tableOpen app1 n = false := by
            unfold tableOpen
            rw [hself]
            rfl
          rw [ho1]
          cases hx : tableOpen app n with
          | false => rw [hx] at h2; exact h2
          | true =>
            rw [hx] at h1
            simp at h1
        · have hoo : tableOpen app1 t = tableOpen app t := by
            unfold tableOpen
            rw [hne t (fun hh => hn hh.symm)]
          rw [hoo]
          exact h2

/-- C5 amended: for any input processed to completion in which no CREATE
TABLE for `t` occurs after an INSERT for `t`, the final row count recorded
for `t` (the count `Close` reports) equals the total number of value tuples
written for `t` across all of the run's sinks. -/
theorem c5_count_correct_amended (cfg : Config) (t : String) (stmts : List Stmt) (app2 : App)
    (hp : processList cfg stmts initApp = .ok app2)
    (hl : lateCreate t stmts false = false) :
    ∀ tb, lookupTable t app2.tables = some tb → tb.count = rowsFor t app2.sinks := by
  have h := countOk_processList cfg t stmts initApp app2 hp
    (fun p hp2 => absurd hp2 (by simp [initApp]))
    (by rw [countOk_iff_of_lookup_none t initApp rfl]; rfl)
    hl
  intro tb htb
  exact ((countOk_iff_of_lookup_some t app2 tb htb).mp h.2).1

/-- C5 witness: on the specification's worked example the reported count for
`page` equals the three tuples written. -/
theorem c5_count_correct_amended_witness :
    processList cfgDefault specExampleStmts initApp = .ok specExampleApp ∧
    reportedCount specExampleApp "page" = rowsFor "page" specExampleApp.sinks ∧
    rowsFor "page" specExampleApp.sinks = 3 := by
  have h := c5_count_correct_amended cfgDefault "page" specExampleStmts specExampleApp rfl
    (by decide)
  refine ⟨rfl, ?_, rfl⟩
  exact h _ rfl

end MysqldumpToCsv
